import Mathlib

/-!
# Verification of the Forex drum-pad MIDI processor

Shallow embedding of `src/main.rs`: the per-pad hit/velocity state machine
(`Tom`, `Drums`), the wall-clock-to-frame translation, the tempo-relative
note-off cache, and the per-cycle merge/sort/emit logic of
`Processor::process`.

Modelling conventions:
- machine integers are `Nat` with explicit wrap-around (`% 2^32`, `% 2^64`)
  where the Rust code can overflow in a release build;
- Rust operations that can panic (`unwrap`, out-of-bounds indexing) are
  modelled with `Except String`;
- `f32`/`f64` values (velocities, `period_usecs`, `beats_per_minute`) are
  modelled as exact rationals `ℚ`; every concrete input used in a theorem
  below is exactly representable in the corresponding float format, so the
  rational computation agrees with the float computation at those points.
  A float-to-integer `as` cast in Rust truncates toward zero and saturates
  at the bounds of the target type; this is modelled with `Int.toNat`,
  `Int.floor` and `min`.
-/

/-- Model of `Hit` from `src/main.rs` lines 9-13: a detected strike, `tom_id: u8`,
`velocity: f32` (modelled as `ℚ`). -/
structure Hit where
  tom_id : Nat
  velocity : ℚ
deriving DecidableEq, Repr

/-- The velocity byte of `Hit::to_midi_bytes` (line 18):
`((1.0 - self.velocity.abs()) * 127.0) as u8`.  The `as u8` cast truncates
toward zero and saturates into `[0, 255]`; for arguments `< 0` it yields `0`,
which `Int.toNat ∘ Int.floor` also does. -/
def velocity_byte (v : ℚ) : Nat :=
  min 255 (Int.toNat ⌊(1 - |v|) * 127⌋)

/-- Model of `Hit::to_midi_bytes` (lines 16-21): returns
`[channel, tom_id + 36, velocity_byte]`.  `tom_id as u8 + 36` wraps modulo
256 (release build). -/
def Hit.to_midi_bytes (h : Hit) (channel : Nat) : List Nat :=
  [channel, (h.tom_id + 36) % 256, velocity_byte h.velocity]

/-- Model of `Tom` from lines 27-31: per-pad state, `hit: bool` records an outstanding
press awaiting a velocity sample. -/
structure Tom where
  id : Nat
  hit : Bool
deriving DecidableEq, Repr

/-- Model of `Tom::new` (line 34). -/
def Tom.new (id : Nat) : Tom := ⟨id, false⟩

/-- Model of `Tom::hit` (lines 39-41): remember that the pad was hit.  (Named `hit'`
because the field is already named `hit`.) -/
def Tom.hit' (t : Tom) : Tom := { t with hit := true }

/-- Model of `Tom::record_velocity` (lines 42-51): if an outstanding press exists,
clear it and return the `Hit`; otherwise return nothing.  The Rust method
mutates `self`; the model returns the updated `Tom` alongside the result. -/
def Tom.record_velocity (t : Tom) (velocity : ℚ) : Option Hit × Tom :=
  if t.hit then (some ⟨t.id, velocity⟩, { t with hit := false })
  else (none, t)

/-- Model of `Drums` from lines 57-59: `toms: [Tom; 6]`, modelled as a list (of length
6 at construction). -/
structure Drums where
  toms : List Tom
deriving DecidableEq, Repr

/-- The `Drums` value built inside `Processor::new` (lines 98-100). -/
def newDrums : Drums :=
  ⟨[Tom.new 0, Tom.new 1, Tom.new 2, Tom.new 3, Tom.new 4, Tom.new 5]⟩

/-- Wrapping `u32` subtraction (release build); both arguments `< 2^32`. -/
def u32_sub (a b : Nat) : Nat := (a + 2 ^ 32 - b) % 2 ^ 32

/-- The relevant constructors of `gilrs::EventType`: the `code` is the
`u32` obtained from `code.into_u32()`; `other` stands for every variant the
source's catch-all `_ => None` arm absorbs. -/
inductive EventType where
  | buttonPressed (code : Nat)
  | buttonReleased (code : Nat)
  | axisChanged (velocity : ℚ) (code : Nat)
  | other
deriving DecidableEq, Repr

/-- Model of `Drums::process_event` (lines 62-82).  Button: `index = code - 65824`
(wrapping) and unchecked `self.toms[index]` — indexing out of bounds panics,
modelled as `Except.error`.  Axis: `weird_index = code - 196608`, remapped by
the `match`; the catch-all arm maps every unrecognized axis code to pad 0. -/
def Drums.process_event (d : Drums) (e : EventType) :
    Except String (Option Hit × Drums) :=
  match e with
  | .buttonPressed code =>
      let index := u32_sub code 65824
      if h : index < d.toms.length then
        .ok (none, ⟨d.toms.set index (d.toms.get ⟨index, h⟩).hit'⟩)
      else
        .error "index out of bounds: toms has 6 elements"
  | .axisChanged velocity code =>
      let weird_index := u32_sub code 196608
      let index : Nat :=
        match weird_index with
        | 0 => 0
        | 1 => 1
        | 4 => 4
        | 3 => 5
        | 5 => 3
        | 6 => 2
        | _ => 0
      if h : index < d.toms.length then
        let r := (d.toms.get ⟨index, h⟩).record_velocity velocity
        .ok (r.1, ⟨d.toms.set index r.2⟩)
      else
        .error "index out of bounds: toms has 6 elements"
  | _ => .ok (none, d)

/-- Line 126: `SystemTime::now().duration_since(time).unwrap().as_micros()`.
`duration_since` returns `Err` when `time` is later than `now`, and the
`unwrap` then panics — there is no clamping of a negative age. -/
def hit_usecs_ago (now time : Nat) : Except String Nat :=
  if time ≤ now then .ok (now - time)
  else .error "SystemTime::duration_since returned Err; unwrap panics"

/-- Line 129: `((hit_usecs_ago as f32 / period_usecs) * n_frames as f32) as u32`.
Division of a finite positive float by `0.0` gives `+inf`, and the saturating
`as u32` cast turns that into `u32::MAX`; otherwise the product is truncated
into `[0, 2^32 - 1]`. -/
def hit_frames_ago (age : Nat) (period : ℚ) (n_frames : Nat) : Nat :=
  if period ≤ 0 then 2 ^ 32 - 1
  else min (2 ^ 32 - 1) (Int.toNat ⌊((age : ℚ) / period) * (n_frames : ℚ)⌋)

/-- Line 130: `process_scope.n_frames() - hit_frames_ago`, a `u32`
subtraction: it wraps in a release build (and panics in a debug build) when
`hit_frames_ago > n_frames` — the result is not clamped into
`[0, n_frames - 1]`. -/
def hit_frame (n_frames hfa : Nat) : Nat := u32_sub n_frames hfa

/-- Line 148: `((60.0 / pos.beats_per_minute) * 1000_000.0) as u64`.
At `beats_per_minute = 0` the float division yields `+inf` and the saturating
cast gives `u64::MAX`; a negative tempo gives a negative product, saturated
to `0`; there is no fallback constant. -/
def beat_usecs (bpm : ℚ) : Nat :=
  if bpm = 0 then 2 ^ 64 - 1
  else if bpm < 0 then 0
  else min (2 ^ 64 - 1) (Int.toNat ⌊(60 / bpm) * 1000000⌋)

/-- Line 149: `cycle_times.current_usecs - hit_usecs_ago as u64 + beat_usecs`,
`u64` arithmetic (wrapping in a release build); `as u64` truncates the
`u128` age modulo `2^64`. -/
def note_off_usec (current_usecs age beat : Nat) : Nat :=
  ((current_usecs + 2 ^ 64 - age % 2 ^ 64) % 2 ^ 64 + beat) % 2 ^ 64

/-- Lines 133-150, the per-hit body of the event loop: `cache.retain` drops
every entry of the same tom, pushing a note-off (status `0x80`) at the new
hit's frame for each dropped entry, in cache order; then the new note-on
(status `0x90`) is pushed, and the hit is cached with its note-off time. -/
def processHitStep (st : List (Nat × Hit) × List (Nat × List Nat)) (hit : Hit)
    (frame note_off : Nat) : List (Nat × Hit) × List (Nat × List Nat) :=
  let collided := st.1.filter (fun e => e.2.tom_id == hit.tom_id)
  let output := st.2 ++ collided.map (fun e => (frame, e.2.to_midi_bytes 0x80))
      ++ [(frame, hit.to_midi_bytes 0x90)]
  let cache := st.1.filter (fun e => e.2.tom_id != hit.tom_id) ++ [(note_off, hit)]
  (cache, output)

/-- The `should_output` predicate of line 156:
`*usec >= current_usecs && *usec < next_usecs`. -/
def shouldOutput (current_usecs next_usecs : Nat) (e : Nat × Hit) : Bool :=
  decide (current_usecs ≤ e.1) && decide (e.1 < next_usecs)

/-- Lines 155-165, the cycle-wide expiry scan: `cache.retain` drops every
entry due inside `[current_usecs, next_usecs)`, pushing for each a note-off
at frame `client.time_to_frames(usec) - current_frames` (`u32` subtraction).
`t2f` stands for the external `client.time_to_frames`. -/
def expiryStep (t2f : Nat → Nat) (current_frames current_usecs next_usecs : Nat)
    (st : List (Nat × Hit) × List (Nat × List Nat)) :
    List (Nat × Hit) × List (Nat × List Nat) :=
  let due := st.1.filter (shouldOutput current_usecs next_usecs)
  let output := st.2 ++
      due.map (fun e => (u32_sub (t2f e.1) current_frames, e.2.to_midi_bytes 0x80))
  let cache := st.1.filter (fun e => ! shouldOutput current_usecs next_usecs e)
  (cache, output)

/-- The comparator of line 168: `a.partial_cmp(b).unwrap()` on the `u32`
frame offsets (total on `u32`, so the `unwrap` never fires). -/
def frameLE (a b : Nat × List Nat) : Bool := decide (a.1 ≤ b.1)

/-- Line 168: `output.sort_by(...)` — Rust's `slice::sort_by` is a stable
merge sort; the sorted list is then written to the port in order
(lines 169-171). -/
def writtenSeq (output : List (Nat × List Nat)) : List (Nat × List Nat) :=
  output.mergeSort frameLE

/-- The per-cycle read-only snapshot taken from `jack` (lines 116-118). -/
structure CycleTimes where
  current_frames : Nat
  current_usecs : Nat
  next_usecs : Nat
  period_usecs : ℚ
deriving Repr

/-- One drained input event (line 122) together with the value
`SystemTime::now()` takes when line 126 runs for it. -/
structure InputEvent where
  event : EventType
  time : Nat
  now : Nat
deriving Repr

/-- The event-drain loop of lines 122-152.  A panic anywhere in the loop
body (modelled `Except.error`) aborts the whole invocation. -/
def processEvents (n_frames : Nat) (ct : CycleTimes) (bpm : ℚ) :
    Drums → List (Nat × Hit) → List (Nat × List Nat) → List InputEvent →
    Except String (Drums × List (Nat × Hit) × List (Nat × List Nat))
  | drums, cache, output, [] => .ok (drums, cache, output)
  | drums, cache, output, e :: rest =>
      match drums.process_event e.event with
      | .error s => .error s
      | .ok (none, drums') => processEvents n_frames ct bpm drums' cache output rest
      | .ok (some hit, drums') =>
          match hit_usecs_ago e.now e.time with
          | .error s => .error s
          | .ok age =>
              let st := processHitStep (cache, output) hit
                  (hit_frame n_frames (hit_frames_ago age ct.period_usecs n_frames))
                  (note_off_usec ct.current_usecs age (beat_usecs bpm))
              processEvents n_frames ct bpm drums' st.1 st.2 rest

/-- One invocation of `Processor::process` (lines 114-174): drain and
process all input events, run the expiry scan, and sort the collected
output stably by frame offset; returns the new drums/cache state and the
sequence actually written to the port. -/
def processCycle (t2f : Nat → Nat) (n_frames : Nat) (ct : CycleTimes) (bpm : ℚ)
    (drums : Drums) (cache : List (Nat × Hit)) (events : List InputEvent) :
    Except String (Drums × List (Nat × Hit) × List (Nat × List Nat)) :=
  match processEvents n_frames ct bpm drums cache [] events with
  | .error s => .error s
  | .ok (drums', cache', output) =>
      let st := expiryStep t2f ct.current_frames ct.current_usecs ct.next_usecs
          (cache', output)
      .ok (drums', st.1, writtenSeq st.2)

/-- The external per-cycle inputs of one callback invocation. -/
structure CycleInput where
  n_frames : Nat
  ct : CycleTimes
  bpm : ℚ
  events : List InputEvent
deriving Repr

/-- Iterated callback invocations: the drums and cache persist across
cycles (fields of `Processor`, lines 88-94), everything else is per-cycle. -/
def runCycles (t2f : Nat → Nat) :
    Drums × List (Nat × Hit) → List CycleInput →
    Except String (Drums × List (Nat × Hit))
  | st, [] => .ok st
  | (drums, cache), i :: rest =>
      match processCycle t2f i.n_frames i.ct i.bpm drums cache i.events with
      | .error s => .error s
      | .ok r => runCycles t2f (r.1, r.2.1) rest

/-! ## Helper lemmas -/

/-- The frame comparator is transitive. -/
theorem frameLE_trans : ∀ a b c : Nat × List Nat,
    frameLE a b = true → frameLE b c = true → frameLE a c = true := by
  intro a b c hab hbc
  simp only [frameLE, decide_eq_true_eq] at *
  omega

/-- The frame comparator is total. -/
theorem frameLE_total : ∀ a b : Nat × List Nat, (frameLE a b || frameLE b a) = true := by
  intro a b
  simp only [frameLE, Bool.or_eq_true, decide_eq_true_eq]
  omega

/-- One beat at 120 BPM is 500000 microseconds. -/
theorem beat_usecs_120 : beat_usecs 120 = 500000 := by
  rw [beat_usecs, if_neg (by norm_num), if_neg (by norm_num)]
  have h : ⌊((60 : ℚ) / 120) * 1000000⌋ = 500000 := by norm_num
  rw [h]
  rfl

/-- Pressing a tom any positive number of times just sets the flag. -/
theorem iterate_hit' (t : Tom) (n : Nat) :
    Tom.hit'^[n + 1] t = { t with hit := true } := by
  induction n with
  | zero => rfl
  | succ k ih => rw [Function.iterate_succ_apply', ih]; rfl

/-! ## Claim theorems -/

/-- C1: the claim says the event age is clamped to 0 when negative and the
frame offset is clamped into `[0, frames_in_cycle - 1]`, so the computation
never panics.  The code does neither: `duration_since(..).unwrap()` panics
for an event timestamp 1 microsecond in the future, and for an age of 0
frames the offset is `frames_in_cycle` itself (here 1024), outside the
claimed range `[0, 1023]` — no clamping occurs. -/
theorem C1_no_clamp_unwrap_panics :
    (hit_usecs_ago 100 101).isOk = false
    ∧ hit_frame 1024 (hit_frames_ago 0 10000 1024) = 1024
    ∧ ¬ hit_frame 1024 (hit_frames_ago 0 10000 1024) ≤ 1023 := by
  have hfa : hit_frames_ago 0 10000 1024 = 0 := by
    rw [hit_frames_ago, if_neg (by norm_num)]
    norm_num
  have hf : hit_frame 1024 (hit_frames_ago 0 10000 1024) = 1024 := by
    rw [hfa, hit_frame, u32_sub]
    omega
  exact ⟨rfl, hf, by omega⟩

/-- C3: the claim says a tempo of 0 falls back to a documented safe default
constant instead of dividing by zero.  The code has no fallback: it computes
`60.0 / 0.0 = +inf` and the saturating `as u64` cast yields `u64::MAX`
(`2^64 - 1`), not any documented constant. -/
theorem C3_no_tempo_fallback : beat_usecs 0 = 2 ^ 64 - 1 := by
  rw [beat_usecs, if_pos rfl]

/-- C4: the claim says events whose code does not map to a pad in `0..5` are
dropped with no state change, no output and no panic.  The code instead
panics on button code 65830 (`toms[6]` is out of bounds), and maps the
unrecognized axis code 196610 to pad 0 via the catch-all `_ => 0` arm,
emitting a hit (and clearing pad 0's state) rather than dropping the
event. -/
theorem C4_unmapped_code_not_dropped :
    (newDrums.process_event (.buttonPressed 65830)).isOk = false
    ∧ (⟨[⟨0, true⟩, Tom.new 1, Tom.new 2, Tom.new 3, Tom.new 4, Tom.new 5]⟩ :
        Drums).process_event (.axisChanged (1/2) 196610)
      = .ok (some ⟨0, 1/2⟩, newDrums) := by
  constructor
  · rfl
  · rfl

/-- C6 counterexample: at raw velocity `0.5` the code emits velocity byte
`((1 - 0.5) * 127) as u8 = 63` (truncation), while the claim's
`round((1 - 0.5) * 127) = round(63.5) = 64`. -/
theorem C6_velocity_truncated_not_rounded :
    Hit.to_midi_bytes ⟨2, 1/2⟩ 0x90 = [0x90, 38, 63]
    ∧ round ((1 - |(1/2 : ℚ)|) * 127) = 64 := by
  have habs : |(1/2 : ℚ)| = 1/2 := abs_of_pos (by norm_num)
  constructor
  · have hfl : ⌊((1 : ℚ) - |1/2|) * 127⌋ = 63 := by
      rw [habs, Int.floor_eq_iff]
      norm_num
    simp only [Hit.to_midi_bytes, velocity_byte]
    rw [hfl]
    rfl
  · rw [habs, round_eq, Int.floor_eq_iff]
    norm_num

/-- C6 amended: for a hit with pad index `p < 6` and raw velocity `v`, the
3-byte message is `[status, p + 36, vb]` where the status byte is the
`channel` argument (`0x90` at the note-on call site, `0x80` at the note-off
call sites) and the velocity byte is the saturating truncation
`⌊(1 - |v|) * 127⌋`, which always lies in `[0, 127]` — truncation, not
rounding. -/
theorem C6_midi_bytes_truncation (t : Nat) (v : ℚ) (c : Nat) (h : t < 6) :
    Hit.to_midi_bytes ⟨t, v⟩ c = [c, t + 36, Int.toNat ⌊(1 - |v|) * 127⌋]
    ∧ velocity_byte v ≤ 127 := by
  have h127 : ⌊(127 : ℚ)⌋ = 127 := by
    rw [show (127 : ℚ) = ((127 : ℤ) : ℚ) by norm_num, Int.floor_intCast]
  have hle : ((1 : ℚ) - |v|) * 127 ≤ 127 := by nlinarith [abs_nonneg v]
  have hfl : ⌊((1 : ℚ) - |v|) * 127⌋ ≤ 127 := by
    calc ⌊((1 : ℚ) - |v|) * 127⌋ ≤ ⌊(127 : ℚ)⌋ := Int.floor_le_floor hle
    _ = 127 := h127
  have hvb : velocity_byte v ≤ 127 := by
    rw [velocity_byte]
    omega
  refine ⟨?_, hvb⟩
  rw [Hit.to_midi_bytes]
  have hmod : (t + 36) % 256 = t + 36 := Nat.mod_eq_of_lt (by omega)
  have hmin : velocity_byte v = Int.toNat ⌊(1 - |v|) * 127⌋ := by
    rw [velocity_byte]
    omega
  rw [hmod, ← hmin]

/-- C6 witness: the amended statement at `p = 2`, `v = 0.5`, channel
`0x80`. -/
theorem C6_midi_bytes_truncation_witness :
    Hit.to_midi_bytes ⟨2, 1/2⟩ 0x80 = [0x80, 2 + 36, Int.toNat ⌊(1 - |(1/2 : ℚ)|) * 127⌋]
    ∧ velocity_byte (1/2) ≤ 127 :=
  C6_midi_bytes_truncation 2 (1/2) 0x80 (by omega)

/-- C9: one or more presses on a pad set the flag exactly once (idempotent),
the next velocity sample yields exactly one `Hit` carrying the pad's id and
the sampled velocity and clears the flag, and a velocity sample with no
outstanding press yields `none` and leaves the pad unchanged. -/
theorem C9_press_then_sample (t : Tom) (v : ℚ) (n : Nat) :
    Tom.hit'^[n + 1] t = { t with hit := true }
    ∧ (Tom.hit'^[n + 1] t).record_velocity v = (some ⟨t.id, v⟩, { t with hit := false })
    ∧ (t.hit = false → t.record_velocity v = (none, t)) := by
  have hiter := iterate_hit' t n
  refine ⟨hiter, ?_, ?_⟩
  · rw [hiter, Tom.record_velocity]
    simp
  · intro h
    rw [Tom.record_velocity, h]
    simp

/-- C9 witness: two presses then one sample on tom 3, and a sample on an
idle tom. -/
theorem C9_press_then_sample_witness :
    Tom.hit'^[2] (Tom.new 3) = { Tom.new 3 with hit := true }
    ∧ (Tom.hit'^[2] (Tom.new 3)).record_velocity (1/2)
        = (some ⟨3, 1/2⟩, { Tom.new 3 with hit := false })
    ∧ (Tom.new 3).record_velocity (1/2) = (none, Tom.new 3) :=
  ⟨(C9_press_then_sample (Tom.new 3) (1/2) 1).1,
   (C9_press_then_sample (Tom.new 3) (1/2) 1).2.1,
   (C9_press_then_sample (Tom.new 3) (1/2) 1).2.2 rfl⟩

/-- C5: the cached note-off deadline is the hit's onset in wall-clock terms
(`current_usecs - age`) plus one beat; the beat duration is the truncation
of `60000000 / bpm` microseconds (the `as u64` cast truncates), and at
120 BPM it is exactly 500000, so the deadline is onset + 500000.  The
hypotheses rule out the `u64` wrap-arounds of the release build. -/
theorem C5_note_off_deadline (current_usecs age : Nat) (bpm : ℚ)
    (h1 : age ≤ current_usecs) (h2 : current_usecs + beat_usecs bpm < 2 ^ 64)
    (h3 : 0 < bpm) :
    note_off_usec current_usecs age (beat_usecs bpm)
      = current_usecs - age + beat_usecs bpm
    ∧ beat_usecs bpm = min (2 ^ 64 - 1) (Int.toNat ⌊(60000000 : ℚ) / bpm⌋)
    ∧ beat_usecs 120 = 500000 := by
  refine ⟨?_, ?_, beat_usecs_120⟩
  · rw [note_off_usec]
    omega
  · rw [beat_usecs, if_neg (by positivity), if_neg (by simp [not_lt, h3.le])]
    rw [div_mul_eq_mul_div]
    norm_num

/-- C5 witness: onset at 1000000 − 2000 = 998000 μs, deadline 1498000 μs at
120 BPM. -/
theorem C5_note_off_deadline_witness :
    note_off_usec 1000000 2000 (beat_usecs 120) = 1000000 - 2000 + beat_usecs 120
    ∧ beat_usecs 120 = min (2 ^ 64 - 1) (Int.toNat ⌊(60000000 : ℚ) / 120⌋)
    ∧ beat_usecs 120 = 500000 :=
  C5_note_off_deadline 1000000 2000 120 (by omega)
    (by rw [beat_usecs_120]; norm_num) (by norm_num)

/-- C7: the written sequence is the stable sort of the constructed output
by ascending frame offset: it is a permutation of the constructed output,
its frame offsets are non-decreasing, and any two entries with equal frame
offset keep their insertion order. -/
theorem C7_written_sorted_stable (output : List (Nat × List Nat)) :
    (writtenSeq output).Perm output
    ∧ (writtenSeq output).Pairwise (fun a b => a.1 ≤ b.1)
    ∧ ∀ a b : Nat × List Nat, a.1 = b.1 →
        [a, b].Sublist output → [a, b].Sublist (writtenSeq output) := by
  refine ⟨List.mergeSort_perm output frameLE, ?_, ?_⟩
  · exact (List.sorted_mergeSort frameLE_trans frameLE_total output).imp
      (fun h => by simpa [frameLE] using h)
  · intro a b hab hsub
    refine List.sublist_mergeSort frameLE_trans frameLE_total ?_ hsub
    simp [frameLE, hab]

/-- C7 witness: sorting `[(5,_), (3,_), (3,_)]` keeps the two frame-3
entries in insertion order. -/
theorem C7_written_sorted_stable_witness :
    (writtenSeq [(5, [1]), (3, [2]), (3, [3])]).Perm [(5, [1]), (3, [2]), (3, [3])]
    ∧ (writtenSeq [(5, [1]), (3, [2]), (3, [3])]).Pairwise (fun a b => a.1 ≤ b.1)
    ∧ [(3, [2]), (3, [3])].Sublist (writtenSeq [(5, [1]), (3, [2]), (3, [3])]) := by
  obtain ⟨h1, h2, h3⟩ := C7_written_sorted_stable [(5, [1]), (3, [2]), (3, [3])]
  exact ⟨h1, h2, h3 (3, [2]) (3, [3]) rfl ((List.Sublist.refl _).cons _)⟩

/-- C2: when a hit arrives on a pad that still has cached note-offs, every
same-pad cache entry is removed (only the freshly inserted entry for the new
hit remains for that pad), a note-off for it is pushed at the new hit's
frame, and in the final written sequence — whatever else the cycle appends
afterwards — that note-off precedes the new note-on, both at the same
frame. -/
theorem C2_collision_closure (cache : List (Nat × Hit))
    (output rest : List (Nat × List Nat)) (hit : Hit) (frame off : Nat)
    (e : Nat × Hit) (he : e ∈ cache) (ht : e.2.tom_id = hit.tom_id) :
    (∀ e' ∈ (processHitStep (cache, output) hit frame off).1,
        e'.2.tom_id = hit.tom_id → e' = (off, hit))
    ∧ (frame, e.2.to_midi_bytes 0x80) ∈ (processHitStep (cache, output) hit frame off).2
    ∧ [(frame, e.2.to_midi_bytes 0x80), (frame, hit.to_midi_bytes 0x90)].Sublist
        (writtenSeq ((processHitStep (cache, output) hit frame off).2 ++ rest)) := by
  have hmem : e ∈ cache.filter (fun x => x.2.tom_id == hit.tom_id) :=
    List.mem_filter.mpr ⟨he, by simp [ht]⟩
  refine ⟨?_, ?_, ?_⟩
  · intro e' he' htom
    simp only [processHitStep, List.mem_append] at he'
    rcases he' with h | h
    · rcases List.mem_filter.mp h with ⟨-, hne⟩
      simp only [bne_iff_ne, ne_eq] at hne
      exact absurd htom hne
    · simpa using h
  · simp only [processHitStep, List.mem_append]
    exact Or.inl (Or.inr (List.mem_map.mpr ⟨e, hmem, rfl⟩))
  · apply List.sublist_mergeSort frameLE_trans frameLE_total
    · simp [frameLE]
    · have hoff : [(frame, e.2.to_midi_bytes 0x80)].Sublist
          ((cache.filter (fun x => x.2.tom_id == hit.tom_id)).map
            (fun x => (frame, x.2.to_midi_bytes 0x80))) :=
        List.singleton_sublist.mpr (List.mem_map.mpr ⟨e, hmem, rfl⟩)
      have hon : [(frame, hit.to_midi_bytes 0x90)].Sublist
          ([(frame, hit.to_midi_bytes 0x90)] ++ rest) :=
        List.sublist_append_left _ rest
      have hboth := hoff.append hon
      simp only [processHitStep, List.append_assoc]
      exact hboth.trans (List.sublist_append_right output _)

/-- C2 witness: a hit on pad 2 while the cache holds a pad-2 entry. -/
theorem C2_collision_closure_witness :
    (7, Hit.to_midi_bytes ⟨2, 1⟩ 0x80) ∈ (processHitStep ([(111, ⟨2, 1⟩)], []) ⟨2, 1/2⟩ 7 999).2
    ∧ [(7, Hit.to_midi_bytes ⟨2, 1⟩ 0x80), (7, Hit.to_midi_bytes ⟨2, 1/2⟩ 0x90)].Sublist
        (writtenSeq ((processHitStep ([(111, ⟨2, 1⟩)], []) ⟨2, 1/2⟩ 7 999).2 ++ [])) := by
  have h := C2_collision_closure [(111, ⟨2, 1⟩)] [] [] ⟨2, 1/2⟩ 7 999 (111, ⟨2, 1⟩)
      (by simp) rfl
  exact ⟨h.2.1, h.2.2⟩

/-- C8: the expiry scan removes exactly the entries due inside
`[current_usecs, next_usecs)` and emits for each a note-off at frame
`time_to_frames(due) - current_frames`; entries outside the window stay;
nothing else is appended to the output; and re-scanning the remaining cache
with the same window emits nothing — an emitted entry is gone and cannot be
emitted again. -/
theorem C8_expiry_scan (t2f : Nat → Nat) (cf cu nu : Nat)
    (cache : List (Nat × Hit)) (output : List (Nat × List Nat)) :
    (∀ e ∈ cache, cu ≤ e.1 → e.1 < nu →
        e ∉ (expiryStep t2f cf cu nu (cache, output)).1
        ∧ (u32_sub (t2f e.1) cf, e.2.to_midi_bytes 0x80)
            ∈ (expiryStep t2f cf cu nu (cache, output)).2)
    ∧ (∀ e ∈ cache, ¬ (cu ≤ e.1 ∧ e.1 < nu) →
        e ∈ (expiryStep t2f cf cu nu (cache, output)).1)
    ∧ (expiryStep t2f cf cu nu (cache, output)).2
        = output ++ (cache.filter (shouldOutput cu nu)).map
            (fun e => (u32_sub (t2f e.1) cf, e.2.to_midi_bytes 0x80))
    ∧ (expiryStep t2f cf cu nu ((expiryStep t2f cf cu nu (cache, output)).1, [])).2
        = [] := by
  refine ⟨?_, ?_, rfl, ?_⟩
  · intro e he h1 h2
    constructor
    · intro habs
      rcases List.mem_filter.mp habs with ⟨-, hkeep⟩
      simp only [shouldOutput, Bool.not_and, Bool.not_eq_true', decide_eq_false_iff_not,
        not_le, not_lt, Bool.or_eq_true, decide_eq_true_eq] at hkeep
      rcases hkeep with h | h
      · omega
      · omega
    · simp only [expiryStep, List.mem_append]
      refine Or.inr (List.mem_map.mpr ⟨e, List.mem_filter.mpr ⟨he, ?_⟩, rfl⟩)
      simp [shouldOutput, h1, h2]
  · intro e he hout
    refine List.mem_filter.mpr ⟨he, ?_⟩
    simp only [shouldOutput, Bool.not_and, Bool.not_eq_true', decide_eq_false_iff_not,
      Bool.or_eq_true, decide_eq_true_eq, not_le, not_lt]
    omega
  · simp only [expiryStep, List.nil_append, List.filter_filter]
    simp

/-- C8 witness: a window `[5, 50)` expires the entry due at 10 and keeps the
entry due at 99; re-scanning emits nothing. -/
theorem C8_expiry_scan_witness :
    ((10, (⟨1, 0⟩ : Hit)) ∉ (expiryStep (fun u => u + 1) 4 5 50
        ([(10, ⟨1, 0⟩), (99, ⟨2, 0⟩)], [])).1)
    ∧ (u32_sub 11 4, Hit.to_midi_bytes ⟨1, 0⟩ 0x80) ∈ (expiryStep (fun u => u + 1) 4 5 50
        ([(10, ⟨1, 0⟩), (99, ⟨2, 0⟩)], [])).2
    ∧ ((99, (⟨2, 0⟩ : Hit)) ∈ (expiryStep (fun u => u + 1) 4 5 50
        ([(10, ⟨1, 0⟩), (99, ⟨2, 0⟩)], [])).1)
    ∧ (expiryStep (fun u => u + 1) 4 5 50 ((expiryStep (fun u => u + 1) 4 5 50
        ([(10, ⟨1, 0⟩), (99, ⟨2, 0⟩)], [])).1, [])).2 = [] := by
  have h := C8_expiry_scan (fun u => u + 1) 4 5 50 [(10, ⟨1, 0⟩), (99, ⟨2, 0⟩)] []
  have h1 := h.1 (10, ⟨1, 0⟩) (by simp) (by omega) (by omega)
  have h2 := h.2.1 (99, ⟨2, 0⟩) (by simp) (by omega)
  exact ⟨h1.1, h1.2, h2, h.2.2.2⟩

/-- Collision closure plus the fresh insert keeps cached tom ids pairwise
distinct: all same-tom entries are removed before the single new entry is
appended. -/
theorem distinct_processHitStep (cache : List (Nat × Hit))
    (output : List (Nat × List Nat)) (hit : Hit) (frame off : Nat)
    (h : cache.Pairwise (fun a b => a.2.tom_id ≠ b.2.tom_id)) :
    ((processHitStep (cache, output) hit frame off).1).Pairwise
      (fun a b => a.2.tom_id ≠ b.2.tom_id) := by
  simp only [processHitStep]
  rw [List.pairwise_append]
  refine ⟨h.sublist (List.filter_sublist cache), by simp, ?_⟩
  intro a ha b hb
  rcases List.mem_filter.mp ha with ⟨-, hne⟩
  simp only [List.mem_singleton] at hb
  subst hb
  simpa using hne

/-- The expiry scan only removes entries, so it keeps tom ids pairwise
distinct. -/
theorem distinct_expiryStep (t2f : Nat → Nat) (cf cu nu : Nat)
    (cache : List (Nat × Hit)) (output : List (Nat × List Nat))
    (h : cache.Pairwise (fun a b => a.2.tom_id ≠ b.2.tom_id)) :
    ((expiryStep t2f cf cu nu (cache, output)).1).Pairwise
      (fun a b => a.2.tom_id ≠ b.2.tom_id) :=
  h.sublist (List.filter_sublist cache)

/-- The event-drain loop preserves distinctness of cached tom ids. -/
theorem distinct_processEvents (n_frames : Nat) (ct : CycleTimes) (bpm : ℚ)
    (events : List InputEvent) :
    ∀ (drums : Drums) (cache : List (Nat × Hit)) (output : List (Nat × List Nat))
      (r : Drums × List (Nat × Hit) × List (Nat × List Nat)),
      processEvents n_frames ct bpm drums cache output events = .ok r →
      cache.Pairwise (fun a b => a.2.tom_id ≠ b.2.tom_id) →
      r.2.1.Pairwise (fun a b => a.2.tom_id ≠ b.2.tom_id) := by
  induction events with
  | nil =>
      intro drums cache output r hok hc
      simp only [processEvents] at hok
      cases hok
      exact hc
  | cons e rest ih =>
      intro drums cache output r hok hc
      simp only [processEvents] at hok
      split at hok
      · cases hok
      · exact ih _ _ _ _ hok hc
      · split at hok
        · cases hok
        · exact ih _ _ _ _ hok (distinct_processHitStep cache output _ _ _ hc)

/-- One whole `Processor::process` invocation preserves distinctness of
cached tom ids. -/
theorem distinct_processCycle (t2f : Nat → Nat) (n_frames : Nat)
    (ct : CycleTimes) (bpm : ℚ) (drums : Drums) (cache : List (Nat × Hit))
    (events : List InputEvent)
    (r : Drums × List (Nat × Hit) × List (Nat × List Nat))
    (hok : processCycle t2f n_frames ct bpm drums cache events = .ok r)
    (hc : cache.Pairwise (fun a b => a.2.tom_id ≠ b.2.tom_id)) :
    r.2.1.Pairwise (fun a b => a.2.tom_id ≠ b.2.tom_id) := by
  rcases hpe : processEvents n_frames ct bpm drums cache [] events with s | p
  · rw [processCycle, hpe] at hok
    cases hok
  · obtain ⟨drums', cache', output⟩ := p
    rw [processCycle, hpe] at hok
    cases hok
    exact distinct_expiryStep t2f ct.current_frames ct.current_usecs ct.next_usecs
      cache' output
      (distinct_processEvents n_frames ct bpm events drums cache [] _ hpe hc)

/-- C10: starting from the empty cache of `Processor::new`, after any
sequence of successful callback invocations the note-off cache holds at most
one entry per `tom_id`: each hit removes all same-tom entries before caching
exactly one new entry, and expiry only removes entries. -/
theorem C10_cache_at_most_one_per_tom (t2f : Nat → Nat)
    (inputs : List CycleInput) (r : Drums × List (Nat × Hit))
    (h : runCycles t2f (newDrums, []) inputs = .ok r) :
    r.2.Pairwise (fun a b => a.2.tom_id ≠ b.2.tom_id) := by
  suffices hgen : ∀ (inputs : List CycleInput) (drums : Drums)
      (cache : List (Nat × Hit)) (r : Drums × List (Nat × Hit)),
      runCycles t2f (drums, cache) inputs = .ok r →
      cache.Pairwise (fun a b => a.2.tom_id ≠ b.2.tom_id) →
      r.2.Pairwise (fun a b => a.2.tom_id ≠ b.2.tom_id) by
    exact hgen inputs newDrums [] r h List.Pairwise.nil
  intro inputs
  induction inputs with
  | nil =>
      intro drums cache r hok hc
      simp only [runCycles] at hok
      cases hok
      exact hc
  | cons i rest ih =>
      intro drums cache r hok hc
      rcases hpc : processCycle t2f i.n_frames i.ct i.bpm drums cache i.events with s | p
      · simp only [runCycles, hpc] at hok
        cases hok
      · simp only [runCycles, hpc] at hok
        exact ih p.1 p.2.1 r hok
          (distinct_processCycle t2f i.n_frames i.ct i.bpm drums cache i.events p hpc hc)

/-- C10 witness: one cycle with a press on pad 0 and its velocity sample
leaves exactly one cached note-off, for tom 0, due one beat (500000 μs)
after the onset. -/
theorem C10_cache_at_most_one_per_tom_witness :
    ([((1500000 : Nat), (⟨0, 1/2⟩ : Hit))]).Pairwise
      (fun a b : Nat × Hit => a.2.tom_id ≠ b.2.tom_id) := by
  have hper : ¬ ((21333 : ℚ) ≤ 0) := by norm_num
  have hfa : hit_frames_ago 0 21333 1024 = 0 := by
    rw [hit_frames_ago, if_neg hper]
    norm_num
  have hrun : runCycles (fun _ => 0) (newDrums, [])
      [⟨1024, ⟨0, 1000000, 1021333, 21333⟩, 120,
        [⟨.buttonPressed 65824, 0, 0⟩, ⟨.axisChanged (1/2) 196608, 5, 5⟩]⟩]
      = .ok (newDrums, [(1500000, ⟨0, 1/2⟩)]) := by
    simp [runCycles, processCycle, processEvents, Drums.process_event, u32_sub,
      Tom.hit', Tom.record_velocity, hit_usecs_ago, hfa, hit_frame,
      beat_usecs_120, note_off_usec, processHitStep, expiryStep, shouldOutput,
      writtenSeq, newDrums, Tom.new, List.mergeSort]
  exact C10_cache_at_most_one_per_tom (fun _ => 0)
    [⟨1024, ⟨0, 1000000, 1021333, 21333⟩, 120,
      [⟨.buttonPressed 65824, 0, 0⟩, ⟨.axisChanged (1/2) 196608, 5, 5⟩]⟩]
    (newDrums, [(1500000, ⟨0, 1/2⟩)]) hrun
